import Mathlib

/-!
Verification of the handy-keys hotkey engine.

This file shallowly embeds the core data model and operations of the
handy-keys repository (modifier sets, the key enumeration and its textual
round-trip, hotkey definitions, the manager's match engine in
`src/manager.rs`, the listener blocking decision in `src/platform/state.rs`
and the platform callbacks, and the event channel receive operations), and
proves or refutes the frozen specification claims about them.

Modelling conventions:
- Rust `HashMap<HotkeyId, Hotkey>` is embedded as an association list
  `List (HotkeyId × Hotkey)`; `HashSet` as a duplicate-free `List` with
  set-style insert and remove.  Iteration order of a `HashMap` is
  unspecified in Rust, so list order carries no more information than the
  source guarantees.
- Rust `u32` counters are embedded as `Nat` (the id counter only
  increments; no claim concerns wrap-around).
- Fallible operations return `Except Error _` mirroring `error.rs`.
-/

namespace HandyKeys

/-- Modifier bitmask from `types/modifiers.rs`: five flags CMD, SHIFT, CTRL,
OPT, FN (bits 0..4 of a `u32`); embedded as one Bool per defined bit. -/
structure Modifiers where
  cmd : Bool
  shift : Bool
  ctrl : Bool
  opt : Bool
  fnk : Bool
deriving DecidableEq, Repr

namespace Modifiers

def empty : Modifiers := ⟨false, false, false, false, false⟩

def CMD : Modifiers := ⟨true, false, false, false, false⟩

def SHIFT : Modifiers := ⟨false, true, false, false, false⟩

def CTRL : Modifiers := ⟨false, false, true, false, false⟩

def OPT : Modifiers := ⟨false, false, false, true, false⟩

def FN : Modifiers := ⟨false, false, false, false, true⟩

/-- Bitwise union (`|`). -/
def union (a b : Modifiers) : Modifiers :=
  ⟨a.cmd || b.cmd, a.shift || b.shift, a.ctrl || b.ctrl, a.opt || b.opt, a.fnk || b.fnk⟩

/-- `a.contains b` iff every bit of `b` is set in `a` (bitflags `contains`). -/
def contains (a b : Modifiers) : Bool :=
  (!b.cmd || a.cmd) && (!b.shift || a.shift) && (!b.ctrl || a.ctrl)
    && (!b.opt || a.opt) && (!b.fnk || a.fnk)

/-- bitflags `is_empty`. -/
def isEmpty (a : Modifiers) : Bool :=
  !a.cmd && !a.shift && !a.ctrl && !a.opt && !a.fnk

/-- True iff `a` has a bit that `b` lacks (`a.bits() & !b.bits() != 0`). -/
def gainedFrom (a b : Modifiers) : Bool :=
  (a.cmd && !b.cmd) || (a.shift && !b.shift) || (a.ctrl && !b.ctrl)
    || (a.opt && !b.opt) || (a.fnk && !b.fnk)

end Modifiers

/-- The closed key enumeration from `types/key.rs`. -/
inductive Key where
  | A | B | C | D | E | F | G | H | I | J | K | L | M
  | N | O | P | Q | R | S | T | U | V | W | X | Y | Z
  | Num0 | Num1 | Num2 | Num3 | Num4
  | Num5 | Num6 | Num7 | Num8 | Num9
  | F1 | F2 | F3 | F4 | F5 | F6 | F7 | F8 | F9 | F10 | F11 | F12
  | F13 | F14 | F15 | F16 | F17 | F18 | F19 | F20
  | Space | Return | Tab | Escape | Delete | ForwardDelete
  | Home | End | PageUp | PageDown
  | LeftArrow | RightArrow | UpArrow | DownArrow
  | Minus | Equal | LeftBracket | RightBracket | Backslash
  | Semicolon | Quote | Comma | Period | Slash | Grave
  | Keypad0 | Keypad1 | Keypad2 | Keypad3 | Keypad4
  | Keypad5 | Keypad6 | Keypad7 | Keypad8 | Keypad9
  | KeypadDecimal | KeypadMultiply | KeypadPlus | KeypadClear
  | KeypadDivide | KeypadEnter | KeypadMinus | KeypadEquals
  | CapsLock | ScrollLock | NumLock
  | MouseLeft | MouseRight | MouseMiddle | MouseX1 | MouseX2
deriving DecidableEq, Repr

/-- `HotkeyId(u32)` from `types/hotkey.rs`, embedded as `Nat`. -/
abbrev HotkeyId := Nat

/-- Errors from `error.rs` needed by the embedded operations.  Payloads that
are external values (`io::Error`, platform strings) are omitted; Rust's
`HotkeyAlreadyRegistered` carries the formatted hotkey text, embedded here as
the hotkey value itself. -/
inductive Error where
  | AccessibilityNotGranted
  | EventTapCreationFailed
  | HotkeyNotFound (id : HotkeyId)
  | HotkeyAlreadyRegistered (modifiers : Modifiers) (key : Option Key)
  | EventLoopNotRunning
  | Timeout
  | EmptyHotkey
  | InvalidHotkeyFormat (s : String)
  | UnknownKey (s : String)
  | UnknownModifier (s : String)
  | MutexPoisoned
deriving DecidableEq, Repr

/-- ASCII lowercase of one character; model of the per-character effect of
Rust's `str::to_lowercase` on the ASCII strings this crate matches. -/
def lowerChar (c : Char) : Char :=
  if 65 ≤ c.toNat ∧ c.toNat ≤ 90 then Char.ofNat (c.toNat + 32) else c

/-- Whitespace test used by the `str::trim` model. -/
def isWhitespaceChar (c : Char) : Bool :=
  c = ' ' || c = '\t' || c = '\n' || c = '\r'

/-- Model of Rust `str::trim`: drop leading and trailing whitespace. -/
def strTrim (s : String) : String :=
  ⟨((s.data.dropWhile isWhitespaceChar).reverse.dropWhile isWhitespaceChar).reverse⟩

/-- Model of Rust `str::to_lowercase` (ASCII fragment). -/
def strToLower (s : String) : String :=
  ⟨s.data.map lowerChar⟩

namespace Key

/-- `impl fmt::Display for Key` from `types/key.rs`. -/
def display : Key → String
  | .A => "A" | .B => "B" | .C => "C" | .D => "D" | .E => "E" | .F => "F"
  | .G => "G" | .H => "H" | .I => "I" | .J => "J" | .K => "K" | .L => "L"
  | .M => "M" | .N => "N" | .O => "O" | .P => "P" | .Q => "Q" | .R => "R"
  | .S => "S" | .T => "T" | .U => "U" | .V => "V" | .W => "W" | .X => "X"
  | .Y => "Y" | .Z => "Z"
  | .Num0 => "0" | .Num1 => "1" | .Num2 => "2" | .Num3 => "3" | .Num4 => "4"
  | .Num5 => "5" | .Num6 => "6" | .Num7 => "7" | .Num8 => "8" | .Num9 => "9"
  | .F1 => "F1" | .F2 => "F2" | .F3 => "F3" | .F4 => "F4" | .F5 => "F5"
  | .F6 => "F6" | .F7 => "F7" | .F8 => "F8" | .F9 => "F9" | .F10 => "F10"
  | .F11 => "F11" | .F12 => "F12" | .F13 => "F13" | .F14 => "F14"
  | .F15 => "F15" | .F16 => "F16" | .F17 => "F17" | .F18 => "F18"
  | .F19 => "F19" | .F20 => "F20"
  | .Space => "Space" | .Return => "Return" | .Tab => "Tab"
  | .Escape => "Escape" | .Delete => "Delete" | .ForwardDelete => "ForwardDelete"
  | .Home => "Home" | .End => "End" | .PageUp => "PageUp" | .PageDown => "PageDown"
  | .LeftArrow => "Left" | .RightArrow => "Right" | .UpArrow => "Up"
  | .DownArrow => "Down"
  | .Minus => "-" | .Equal => "=" | .LeftBracket => "[" | .RightBracket => "]"
  | .Backslash => "\\" | .Semicolon => ";" | .Quote => "\x27" | .Comma => ","
  | .Period => "." | .Slash => "/" | .Grave => "`"
  | .Keypad0 => "Keypad0" | .Keypad1 => "Keypad1" | .Keypad2 => "Keypad2"
  | .Keypad3 => "Keypad3" | .Keypad4 => "Keypad4" | .Keypad5 => "Keypad5"
  | .Keypad6 => "Keypad6" | .Keypad7 => "Keypad7" | .Keypad8 => "Keypad8"
  | .Keypad9 => "Keypad9"
  | .KeypadDecimal => "Keypad." | .KeypadMultiply => "Keypad*"
  | .KeypadPlus => "Keypad+" | .KeypadClear => "KeypadClear"
  | .KeypadDivide => "Keypad/" | .KeypadEnter => "KeypadEnter"
  | .KeypadMinus => "Keypad-" | .KeypadEquals => "Keypad="
  | .CapsLock => "CapsLock" | .ScrollLock => "ScrollLock" | .NumLock => "NumLock"
  | .MouseLeft => "MouseLeft" | .MouseRight => "MouseRight"
  | .MouseMiddle => "MouseMiddle" | .MouseX1 => "MouseX1" | .MouseX2 => "MouseX2"

/-- `impl FromStr for Key` from `types/key.rs`: trim, lowercase, match
against canonical names and documented aliases. -/
def fromStr (s : String) : Except Error Key :=
  let t := strTrim s
  match strToLower t with
  | "a" => .ok .A | "b" => .ok .B | "c" => .ok .C | "d" => .ok .D
  | "e" => .ok .E | "f" => .ok .F | "g" => .ok .G | "h" => .ok .H
  | "i" => .ok .I | "j" => .ok .J | "k" => .ok .K | "l" => .ok .L
  | "m" => .ok .M | "n" => .ok .N | "o" => .ok .O | "p" => .ok .P
  | "q" => .ok .Q | "r" => .ok .R | "s" => .ok .S | "t" => .ok .T
  | "u" => .ok .U | "v" => .ok .V | "w" => .ok .W | "x" => .ok .X
  | "y" => .ok .Y | "z" => .ok .Z
  | "0" | "num0" => .ok .Num0
  | "1" | "num1" => .ok .Num1
  | "2" | "num2" => .ok .Num2
  | "3" | "num3" => .ok .Num3
  | "4" | "num4" => .ok .Num4
  | "5" | "num5" => .ok .Num5
  | "6" | "num6" => .ok .Num6
  | "7" | "num7" => .ok .Num7
  | "8" | "num8" => .ok .Num8
  | "9" | "num9" => .ok .Num9
  | "f1" => .ok .F1 | "f2" => .ok .F2 | "f3" => .ok .F3 | "f4" => .ok .F4
  | "f5" => .ok .F5 | "f6" => .ok .F6 | "f7" => .ok .F7 | "f8" => .ok .F8
  | "f9" => .ok .F9 | "f10" => .ok .F10 | "f11" => .ok .F11 | "f12" => .ok .F12
  | "f13" => .ok .F13 | "f14" => .ok .F14 | "f15" => .ok .F15 | "f16" => .ok .F16
  | "f17" => .ok .F17 | "f18" => .ok .F18 | "f19" => .ok .F19 | "f20" => .ok .F20
  | "space" | " " => .ok .Space
  | "return" | "enter" => .ok .Return
  | "tab" => .ok .Tab
  | "escape" | "esc" => .ok .Escape
  | "delete" | "backspace" => .ok .Delete
  | "forwarddelete" | "del" => .ok .ForwardDelete
  | "home" => .ok .Home
  | "end" => .ok .End
  | "pageup" => .ok .PageUp
  | "pagedown" => .ok .PageDown
  | "left" | "leftarrow" => .ok .LeftArrow
  | "right" | "rightarrow" => .ok .RightArrow
  | "up" | "uparrow" => .ok .UpArrow
  | "down" | "downarrow" => .ok .DownArrow
  | "-" | "minus" => .ok .Minus
  | "=" | "equal" | "equals" => .ok .Equal
  | "[" | "leftbracket" => .ok .LeftBracket
  | "]" | "rightbracket" => .ok .RightBracket
  | "\\" | "backslash" => .ok .Backslash
  | ";" | "semicolon" => .ok .Semicolon
  | "\x27" | "quote" => .ok .Quote
  | "," | "comma" => .ok .Comma
  | "." | "period" => .ok .Period
  | "/" | "slash" => .ok .Slash
  | "`" | "grave" | "backtick" => .ok .Grave
  | "keypad0" => .ok .Keypad0 | "keypad1" => .ok .Keypad1
  | "keypad2" => .ok .Keypad2 | "keypad3" => .ok .Keypad3
  | "keypad4" => .ok .Keypad4 | "keypad5" => .ok .Keypad5
  | "keypad6" => .ok .Keypad6 | "keypad7" => .ok .Keypad7
  | "keypad8" => .ok .Keypad8 | "keypad9" => .ok .Keypad9
  | "keypad." | "keypaddecimal" => .ok .KeypadDecimal
  | "keypad*" | "keypadmultiply" => .ok .KeypadMultiply
  | "keypad+" | "keypadplus" => .ok .KeypadPlus
  | "keypadclear" => .ok .KeypadClear
  | "keypad/" | "keypaddivide" => .ok .KeypadDivide
  | "keypadenter" => .ok .KeypadEnter
  | "keypad-" | "keypadminus" => .ok .KeypadMinus
  | "keypad=" | "keypadequals" => .ok .KeypadEquals
  | "capslock" | "caps" => .ok .CapsLock
  | "scrolllock" | "scroll" => .ok .ScrollLock
  | "numlock" => .ok .NumLock
  | "mouseleft" | "leftclick" | "lmb" | "mouse1" => .ok .MouseLeft
  | "mouseright" | "rightclick" | "rmb" | "mouse2" => .ok .MouseRight
  | "mousemiddle" | "middleclick" | "mmb" | "mouse3" => .ok .MouseMiddle
  | "mousex1" | "mouse4" | "back" | "xbutton1" => .ok .MouseX1
  | "mousex2" | "mouse5" | "forward" | "xbutton2" => .ok .MouseX2
  | _ => .error (.UnknownKey t)

end Key

/-- `Hotkey` from `types/hotkey.rs`: modifiers plus an optional key. -/
structure Hotkey where
  modifiers : Modifiers
  key : Option Key
deriving DecidableEq, Repr

/-- `Hotkey::new`: fails iff modifiers are empty and no key is given. -/
def Hotkey.new (modifiers : Modifiers) (key : Option Key) : Except Error Hotkey :=
  if modifiers.isEmpty && key.isNone then .error .EmptyHotkey
  else .ok ⟨modifiers, key⟩

/-- `HotkeyState` from `types/hotkey.rs`. -/
inductive HotkeyState where
  | Pressed
  | Released
deriving DecidableEq, Repr

/-- `HotkeyEvent` from `types/hotkey.rs`. -/
structure HotkeyEvent where
  id : HotkeyId
  state : HotkeyState
deriving DecidableEq, Repr

/-- `KeyEvent` from `types/hotkey.rs` (the canonical event). -/
structure KeyEvent where
  modifiers : Modifiers
  key : Option Key
  is_key_down : Bool
  changed_modifier : Option Modifiers
deriving DecidableEq, Repr

/-- `HashSet::contains` on a list-embedded set. -/
def listMem {α : Type} [DecidableEq α] (x : α) : List α → Bool
  | [] => false
  | y :: ys => if x = y then true else listMem x ys

/-- `HashSet::insert` on a list-embedded set. -/
def setInsert {α : Type} [DecidableEq α] (l : List α) (x : α) : List α :=
  if listMem x l then l else l ++ [x]

/-- `HashSet::remove` on a list-embedded set. -/
def setRemove {α : Type} [DecidableEq α] (l : List α) (x : α) : List α :=
  l.filter (fun y => !(decide (y = x)))

/-- `ManagerState` from `manager.rs`: registration table, id counter and
currently-pressed id set. -/
structure ManagerState where
  hotkeys : List (HotkeyId × Hotkey)
  next_id : Nat
  pressed_hotkeys : List HotkeyId
deriving DecidableEq, Repr

namespace ManagerState

/-- `ManagerState::new`. -/
def new : ManagerState := ⟨[], 0, []⟩

/-- Filter of the `to_press` collection in `ManagerState::process_event`:
definition equality with the event plus not currently pressed. -/
def pressFilter (s : ManagerState) (e : KeyEvent) (p : HotkeyId × Hotkey) : Bool :=
  decide (p.2.modifiers = e.modifiers) && decide (p.2.key = e.key)
    && !(listMem p.1 s.pressed_hotkeys)

/-- Filter of the `to_release` collection in `ManagerState::process_event`:
currently pressed, and either the hotkey's key equals the event's key or the
event is modifier-only and the hotkey's modifiers are no longer held. -/
def releaseFilter (s : ManagerState) (e : KeyEvent) (p : HotkeyId × Hotkey) : Bool :=
  listMem p.1 s.pressed_hotkeys
    && (decide (p.2.key = e.key)
        || (e.key.isNone && !(e.modifiers.contains p.2.modifiers)))

/-- `ManagerState::process_event` from `manager.rs`: on key-down, press every
matching released hotkey; otherwise release every pressed hotkey whose key
matches or whose modifiers were dropped. -/
def processEvent (s : ManagerState) (e : KeyEvent) : ManagerState × List HotkeyEvent :=
  if e.is_key_down then
    let toPress := (s.hotkeys.filter (pressFilter s e)).map Prod.fst
    ({ s with pressed_hotkeys := toPress.foldl setInsert s.pressed_hotkeys },
     toPress.map (fun id => ⟨id, .Pressed⟩))
  else
    let toRelease := (s.hotkeys.filter (releaseFilter s e)).map Prod.fst
    ({ s with pressed_hotkeys := toRelease.foldl setRemove s.pressed_hotkeys },
     toRelease.map (fun id => ⟨id, .Released⟩))

end ManagerState

/-- `HotkeyManager`'s lock-protected state plus the shared blocking set
(`blocking_hotkeys`), the two pieces `register`/`unregister` mutate. -/
structure Manager where
  state : ManagerState
  blocking : List Hotkey
deriving DecidableEq, Repr

namespace Manager

/-- Fresh manager: empty table, counter 0, empty blocking set. -/
def initial : Manager := ⟨ManagerState.new, []⟩

/-- `HotkeyManager::register` from `manager.rs`.  Returns the manager after
the call together with the call's result; on the duplicate error the manager
is returned untouched, mirroring the early `return Err` before any mutation. -/
def register (m : Manager) (h : Hotkey) : Manager × Except Error HotkeyId :=
  if m.state.hotkeys.any (fun p => decide (p.2 = h)) then
    (m, .error (.HotkeyAlreadyRegistered h.modifiers h.key))
  else
    let id := m.state.next_id
    (⟨{ hotkeys := m.state.hotkeys ++ [(id, h)]
        next_id := id + 1
        pressed_hotkeys := m.state.pressed_hotkeys },
      setInsert m.blocking h⟩,
     .ok id)

/-- `HotkeyManager::unregister` from `manager.rs`: remove the id from the
table and its hotkey from the blocking set; error if the id is absent.
The pressed-id set is not touched by the source. -/
def unregister (m : Manager) (id : HotkeyId) : Manager × Except Error Unit :=
  match m.state.hotkeys.find? (fun p => decide (p.1 = id)) with
  | none => (m, .error (.HotkeyNotFound id))
  | some p =>
      (⟨{ m.state with hotkeys := m.state.hotkeys.filter (fun q => !(decide (q.1 = id))) },
        setRemove m.blocking p.2⟩,
       .ok ())

/-- `HotkeyManager::get_hotkey`. -/
def get_hotkey (m : Manager) (id : HotkeyId) : Option Hotkey :=
  (m.state.hotkeys.find? (fun p => decide (p.1 = id))).map Prod.snd

end Manager

/-- One interaction with the manager: a `register` or `unregister` call, or
one canonical event drained from the listener channel by the worker. -/
inductive Op where
  | reg (h : Hotkey)
  | unreg (id : HotkeyId)
  | proc (e : KeyEvent)

/-- One step of the manager: calls mutate the state and emit nothing; a
processed event emits the `HotkeyEvent`s of `process_event`. -/
def Manager.step (m : Manager) (op : Op) : Manager × List HotkeyEvent :=
  match op with
  | .reg h => ((m.register h).1, [])
  | .unreg id => ((m.unregister id).1, [])
  | .proc e =>
      let r := m.state.processEvent e
      (⟨r.1, m.blocking⟩, r.2)

/-- Run a sequence of operations, concatenating all emitted events in
order. -/
def Manager.run (m : Manager) : List Op → Manager × List HotkeyEvent
  | [] => (m, [])
  | op :: ops =>
      let r := m.step op
      let rest := r.1.run ops
      (rest.1, r.2 ++ rest.2)

/-- `ListenerState` from `platform/state.rs`: tracked modifier snapshot and
the optional shared blocking set. -/
structure ListenerState where
  current_modifiers : Modifiers
  blocking_hotkeys : Option (List Hotkey)
deriving DecidableEq, Repr

namespace ListenerState

/-- `ListenerState::should_block`: true iff a blocking set is present and
contains exactly `(modifiers, key)`. -/
def should_block (st : ListenerState) (modifiers : Modifiers) (key : Option Key) : Bool :=
  match st.blocking_hotkeys with
  | some set => listMem (Hotkey.mk modifiers key) set
  | none => false

end ListenerState

/-- One native notification as seen by the macOS `event_tap_callback`, with
the mechanical per-platform lookups already applied: `key` is
`keycode_to_key(keycode)`, `modifiers` is `flags_to_modifiers(flags)`,
`changed` is `keycode_to_modifier(keycode)`, `lockKey` is
`keycode_to_key(keycode)` for the FlagsChanged keycode, and `alphaShift` is
the `MaskAlphaShift` bit of the event flags. -/
inductive CGEventKind where
  | keyDown (key : Option Key) (modifiers : Modifiers)
  | keyUp (key : Option Key) (modifiers : Modifiers)
  | flagsChanged (changed : Option Modifiers) (lockKey : Option Key)
      (alphaShift : Bool) (modifiers : Modifiers)

/-- `event_tap_callback` from `platform/macos/listener.rs`: returns the
updated listener state, whether the native event is suppressed, and the
canonical event pushed to the channel (if any). -/
def eventTapCallback (st : ListenerState) (e : CGEventKind) :
    ListenerState × Bool × Option KeyEvent :=
  match e with
  | .keyDown key mods =>
      (st, st.should_block mods key, some ⟨mods, key, true, none⟩)
  | .keyUp key mods =>
      (st, st.should_block mods key, some ⟨mods, key, false, none⟩)
  | .flagsChanged changed lockKey alphaShift mods =>
      let prev := st.current_modifiers
      let st := { st with current_modifiers := mods }
      match lockKey with
      | some k =>
          (st, st.should_block mods (some k), some ⟨mods, some k, alphaShift, none⟩)
      | none =>
          if mods ≠ prev then
            let is_key_down := mods.gainedFrom prev
            let blocked := if is_key_down then st.should_block mods none else false
            (st, blocked, some ⟨mods, none, is_key_down, changed⟩)
          else
            (st, false, none)

/-- State of the hotkey-event mpsc channel as seen by the receiver: queued
events in arrival order, and whether the sender half is still alive. -/
structure Chan where
  queue : List HotkeyEvent
  senderAlive : Bool
deriving DecidableEq, Repr

/-- Result type of std `mpsc::Receiver::try_recv`. -/
inductive TryRecvResult where
  | ok (e : HotkeyEvent)
  | empty
  | disconnected
deriving DecidableEq, Repr

/-- Model of std `mpsc::Receiver::try_recv`: the front event if one is
queued, `Empty` if none is queued but the sender lives, `Disconnected` if
none is queued and the sender is gone. -/
def mpscTryRecv (c : Chan) : TryRecvResult :=
  match c.queue with
  | e :: _ => .ok e
  | [] => if c.senderAlive then .empty else .disconnected

/-- `HotkeyManager::try_recv` from `manager.rs`: `Some(event)` on a queued
event, `None` on both `Empty` and `Disconnected`. -/
def Manager.try_recv (c : Chan) : Option HotkeyEvent :=
  match mpscTryRecv c with
  | .ok e => some e
  | .empty => none
  | .disconnected => none

/-- `HotkeyManager::recv` from `manager.rs`, built on blocking
`mpsc::Receiver::recv`: the front event if queued; with an empty queue it
blocks while the sender lives (`none` here) and returns the
`EventLoopNotRunning` error once the sender is gone. -/
def Manager.recvResult (c : Chan) : Option (Except Error HotkeyEvent) :=
  match c.queue with
  | e :: _ => some (.ok e)
  | [] => if c.senderAlive then none else some (.error .EventLoopNotRunning)

/-- The other lifecycle state. -/
def HotkeyState.flip : HotkeyState → HotkeyState
  | .Pressed => .Released
  | .Released => .Pressed

/-- Consume a lifecycle-state list against the expected alternation: starting
from the expected next state, succeed with the state expected after the list,
fail on the first out-of-turn element.  `altConsume .Pressed l = some _`
says `l` strictly alternates Pressed, Released, Pressed, ... -/
def altConsume : HotkeyState → List HotkeyState → Option HotkeyState
  | expected, [] => some expected
  | expected, s :: rest =>
      if s = expected then altConsume expected.flip rest else none

/-- The lifecycle states emitted for one id, in emission order. -/
def statesFor (id : HotkeyId) (evs : List HotkeyEvent) : List HotkeyState :=
  (evs.filter (fun ev => decide (ev.id = id))).map HotkeyEvent.state

/-- Well-formedness the manager maintains: table ids are distinct and all
below the monotone counter (so a freshly assigned id is never in the
table). -/
def ManagerState.WF (s : ManagerState) : Prop :=
  (s.hotkeys.map Prod.fst).Nodup ∧ ∀ p ∈ s.hotkeys, p.1 < s.next_id

/-- The next lifecycle state the engine may emit for an id: `Released` while
the id is marked pressed, else `Pressed`. -/
def Manager.phase (m : Manager) (id : HotkeyId) : HotkeyState :=
  if id ∈ m.state.pressed_hotkeys then .Released else .Pressed

/-- Run invariant for the alternation proof: the state is well-formed and,
for every id, the events emitted so far alternate and end expecting exactly
the phase recorded by the pressed set. -/
def AltInv (m : Manager) (acc : List HotkeyEvent) : Prop :=
  m.state.WF ∧ ∀ id, altConsume .Pressed (statesFor id acc) = some (m.phase id)

end HandyKeys

deriving instance DecidableEq for Except

namespace HandyKeys

theorem listMem_iff {α : Type} [DecidableEq α] (x : α) (l : List α) :
    listMem x l = true ↔ x ∈ l := by
  induction l with
  | nil => simp [listMem]
  | cons y ys ih =>
      by_cases hxy : x = y
      · subst hxy
        simp [listMem]
      · simp [listMem, hxy, ih]

theorem mem_setInsert {α : Type} [DecidableEq α] (l : List α) (x y : α) :
    y ∈ setInsert l x ↔ y ∈ l ∨ y = x := by
  unfold setInsert
  by_cases h : listMem x l = true
  · have hx : x ∈ l := (listMem_iff x l).mp h
    simp only [h, if_true]
    constructor
    · exact Or.inl
    · rintro (hy | rfl)
      · exact hy
      · exact hx
  · simp [h]

theorem mem_foldl_setInsert {α : Type} [DecidableEq α] (xs : List α) (l : List α) (y : α) :
    y ∈ xs.foldl setInsert l ↔ y ∈ l ∨ y ∈ xs := by
  induction xs generalizing l with
  | nil => simp
  | cons x xs ih =>
      simp only [List.foldl_cons, ih, mem_setInsert, List.mem_cons]
      tauto

theorem mem_setRemove {α : Type} [DecidableEq α] (l : List α) (x y : α) :
    y ∈ setRemove l x ↔ y ∈ l ∧ y ≠ x := by
  simp [setRemove, List.mem_filter]

theorem mem_foldl_setRemove {α : Type} [DecidableEq α] (xs : List α) (l : List α) (y : α) :
    y ∈ xs.foldl setRemove l ↔ y ∈ l ∧ y ∉ xs := by
  induction xs generalizing l with
  | nil => simp
  | cons x xs ih =>
      simp only [List.foldl_cons, ih, mem_setRemove, List.mem_cons]
      tauto

theorem mem_map_fst_filter {l : List (HotkeyId × Hotkey)} {f : HotkeyId × Hotkey → Bool}
    {id : HotkeyId} :
    id ∈ (l.filter f).map Prod.fst ↔ ∃ hk, (id, hk) ∈ l ∧ f (id, hk) = true := by
  simp only [List.mem_map, List.mem_filter]
  constructor
  · rintro ⟨⟨i, hk⟩, ⟨hmem, hf⟩, rfl⟩
    exact ⟨hk, hmem, hf⟩
  · rintro ⟨hk, hmem, hf⟩
    exact ⟨(id, hk), ⟨hmem, hf⟩, rfl⟩

theorem processEvent_down (s : ManagerState) (e : KeyEvent) (h : e.is_key_down = true) :
    s.processEvent e =
      (⟨s.hotkeys, s.next_id,
         ((s.hotkeys.filter (s.pressFilter e)).map Prod.fst).foldl setInsert s.pressed_hotkeys⟩,
       ((s.hotkeys.filter (s.pressFilter e)).map Prod.fst).map (fun id => ⟨id, .Pressed⟩)) := by
  simp [ManagerState.processEvent, h]

theorem processEvent_up (s : ManagerState) (e : KeyEvent) (h : e.is_key_down = false) :
    s.processEvent e =
      (⟨s.hotkeys, s.next_id,
         ((s.hotkeys.filter (s.releaseFilter e)).map Prod.fst).foldl setRemove s.pressed_hotkeys⟩,
       ((s.hotkeys.filter (s.releaseFilter e)).map Prod.fst).map (fun id => ⟨id, .Released⟩)) := by
  simp [ManagerState.processEvent, h]

theorem listMem_eq_false {α : Type} [DecidableEq α] (x : α) (l : List α) :
    listMem x l = false ↔ x ∉ l := by
  rw [← Bool.not_eq_true, not_iff_not, listMem_iff]

/-- C8: for every variant of the `Key` enumeration, parsing the canonical
display string of the variant yields the variant back:
`Key::from_str(k.to_string()) == Ok(k)`. -/
theorem key_display_fromStr_roundtrip :
    ∀ k : Key, Key.fromStr (Key.display k) = Except.ok k := by
  intro k
  cases k <;> decide

/-- C2 (code exhibit): register `(Cmd, K)` (id 0), press it, then
unregister id 0.  The table and the blocking set become empty, but id 0 is
still in the pressed-id set: `unregister` does not remove the id from the
pressed set, and the pressed-set ⊆ table-domain invariant is broken. -/
theorem unregister_leaves_pressed_id :
    (Manager.run Manager.initial
        [.reg ⟨Modifiers.CMD, some .K⟩,
         .proc ⟨Modifiers.CMD, some .K, true, none⟩,
         .unreg 0]).1.state.hotkeys = [] ∧
    (Manager.run Manager.initial
        [.reg ⟨Modifiers.CMD, some .K⟩,
         .proc ⟨Modifiers.CMD, some .K, true, none⟩,
         .unreg 0]).1.state.pressed_hotkeys = [0] ∧
    (Manager.run Manager.initial
        [.reg ⟨Modifiers.CMD, some .K⟩,
         .proc ⟨Modifiers.CMD, some .K, true, none⟩,
         .unreg 0]).1.blocking = [] := by
  decide

/-- C3 (code exhibit): with Blocking Set `{(Cmd, Some K)}` the K key-down
carrying flags `{Cmd}` is suppressed, but after the Cmd flags-changed event
the matching K key-up (now carrying empty flags) is re-evaluated against the
current modifiers and passes through: the key-down decision is recomputed at
key-up, not replayed. -/
theorem keyup_block_decision_recomputed :
    (eventTapCallback ⟨Modifiers.CMD, some [⟨Modifiers.CMD, some .K⟩]⟩
        (.keyDown (some .K) Modifiers.CMD)).2.1 = true ∧
    (eventTapCallback
        ((eventTapCallback ⟨Modifiers.CMD, some [⟨Modifiers.CMD, some .K⟩]⟩
            (.flagsChanged (some Modifiers.CMD) none false Modifiers.empty)).1)
        (.keyUp (some .K) Modifiers.empty)).2.1 = false := by
  decide

/-- C10: with an empty queue `try_recv` returns `None` whether or not the
sender half is alive, so the non-blocking poll cannot distinguish a stopped
event loop from an empty queue; the blocking `recv` reports the
`EventLoopNotRunning` error once the sender is gone. -/
theorem try_recv_hides_disconnect (c : Chan) (hq : c.queue = []) :
    Manager.try_recv c = none ∧
    (c.senderAlive = false →
       Manager.recvResult c = some (.error .EventLoopNotRunning)) := by
  obtain ⟨q, alive⟩ := c
  simp only at hq
  subst hq
  cases alive <;> simp [Manager.try_recv, mpscTryRecv, Manager.recvResult]

theorem try_recv_hides_disconnect_witness :
    Manager.try_recv ⟨[], false⟩ = none ∧
    ((false : Bool) = false →
       Manager.recvResult ⟨[], false⟩ = some (.error .EventLoopNotRunning)) :=
  try_recv_hides_disconnect ⟨[], false⟩ rfl

/-- C7: `register` fails on an already-registered equal hotkey leaving the
manager untouched (same table, same id counter, same blocking set); on a
fresh hotkey it returns the current counter value as the id, appends the
entry, advances the counter, and adds the hotkey to the blocking set. -/
theorem register_duplicate_rejected (m : Manager) (h : Hotkey) :
    ((∃ p ∈ m.state.hotkeys, p.2 = h) →
       (m.register h).1 = m ∧
       (m.register h).2 = .error (.HotkeyAlreadyRegistered h.modifiers h.key)) ∧
    ((∀ p ∈ m.state.hotkeys, p.2 ≠ h) →
       (m.register h).2 = .ok m.state.next_id ∧
       (m.register h).1.state.hotkeys = m.state.hotkeys ++ [(m.state.next_id, h)] ∧
       (m.register h).1.state.next_id = m.state.next_id + 1 ∧
       (m.register h).1.state.pressed_hotkeys = m.state.pressed_hotkeys ∧
       (m.register h).1.blocking = setInsert m.blocking h) := by
  constructor
  · rintro ⟨p, hp, hph⟩
    have hc : (m.state.hotkeys.any fun q => decide (q.2 = h)) = true := by
      rw [List.any_eq_true]
      exact ⟨p, hp, by simp [hph]⟩
    simp [Manager.register, hc]
  · intro hall
    have hc : (m.state.hotkeys.any fun q => decide (q.2 = h)) = false := by
      rw [Bool.eq_false_iff]
      intro habs
      rw [List.any_eq_true] at habs
      obtain ⟨p, hp, hph⟩ := habs
      exact hall p hp (by simpa using hph)
    simp [Manager.register, hc]

theorem register_duplicate_rejected_witness :
    ((Manager.register ⟨⟨[(0, ⟨Modifiers.CMD, some .K⟩)], 1, []⟩, [⟨Modifiers.CMD, some .K⟩]⟩
        ⟨Modifiers.CMD, some .K⟩).1 =
      ⟨⟨[(0, ⟨Modifiers.CMD, some .K⟩)], 1, []⟩, [⟨Modifiers.CMD, some .K⟩]⟩) ∧
    ((Manager.register ⟨⟨[(0, ⟨Modifiers.CMD, some .K⟩)], 1, []⟩, [⟨Modifiers.CMD, some .K⟩]⟩
        ⟨Modifiers.CMD, some .K⟩).2 =
      .error (.HotkeyAlreadyRegistered Modifiers.CMD (some .K))) :=
  (register_duplicate_rejected
      ⟨⟨[(0, ⟨Modifiers.CMD, some .K⟩)], 1, []⟩, [⟨Modifiers.CMD, some .K⟩]⟩
      ⟨Modifiers.CMD, some .K⟩).1
    ⟨(0, ⟨Modifiers.CMD, some .K⟩), by decide, rfl⟩

theorem down_no_event_for_pressed (s : ManagerState) (e : KeyEvent) (id : HotkeyId)
    (hdown : e.is_key_down = true) (hpressed : id ∈ s.pressed_hotkeys) :
    ∀ ev ∈ (s.processEvent e).2, ev.id ≠ id := by
  intro ev hev heq
  rw [processEvent_down s e hdown] at hev
  simp only [List.mem_map] at hev
  obtain ⟨i, hi, rfl⟩ := hev
  simp only at heq
  subst heq
  obtain ⟨⟨j, hk⟩, hmem, hji⟩ := hi
  simp only at hji
  subst hji
  rw [List.mem_filter] at hmem
  have hf := hmem.2
  simp only [ManagerState.pressFilter, Bool.and_eq_true, Bool.not_eq_true'] at hf
  exact ((listMem_eq_false _ _).mp hf.2) hpressed

theorem down_pressed_stays_pressed (s : ManagerState) (e : KeyEvent) (id : HotkeyId)
    (hdown : e.is_key_down = true) (hpressed : id ∈ s.pressed_hotkeys) :
    id ∈ (s.processEvent e).1.pressed_hotkeys := by
  rw [processEvent_down s e hdown]
  simp only
  rw [mem_foldl_setInsert]
  exact Or.inl hpressed

/-- C5: a key-down event never emits anything for an id that is already
pressed (key-repeat is idempotent), and the concrete sequence
`down(Cmd,K)`, `down(Cmd,K)` against a registered `(Cmd,K)` hotkey emits
exactly one `Pressed` in total, nothing on the second down. -/
theorem press_redelivery_idempotent :
    (∀ (s : ManagerState) (e : KeyEvent) (id : HotkeyId),
        e.is_key_down = true → id ∈ s.pressed_hotkeys →
        ∀ ev ∈ (s.processEvent e).2, ev.id ≠ id) ∧
    (ManagerState.processEvent ⟨[(0, ⟨Modifiers.CMD, some .K⟩)], 1, []⟩
        ⟨Modifiers.CMD, some .K, true, none⟩).2 = [⟨0, .Pressed⟩] ∧
    (ManagerState.processEvent
        (ManagerState.processEvent ⟨[(0, ⟨Modifiers.CMD, some .K⟩)], 1, []⟩
            ⟨Modifiers.CMD, some .K, true, none⟩).1
        ⟨Modifiers.CMD, some .K, true, none⟩).2 = [] := by
  exact ⟨down_no_event_for_pressed, by decide, by decide⟩

theorem press_redelivery_idempotent_witness :
    ∀ ev ∈ (ManagerState.processEvent ⟨[(0, ⟨Modifiers.CMD, some .K⟩)], 1, [0]⟩
        ⟨Modifiers.CMD, some .K, true, none⟩).2, ev.id ≠ 0 :=
  press_redelivery_idempotent.1 ⟨[(0, ⟨Modifiers.CMD, some .K⟩)], 1, [0]⟩
    ⟨Modifiers.CMD, some .K, true, none⟩ 0 rfl (by decide)

/-- C6: on a key-down event with key `Some k`, exactly the released hotkeys
whose definition equals `(E.modifiers, Some k)` by set equality fire
`Pressed`; every emitted event is a `Pressed`; and with `(Cmd,K)` and
`(Ctrl,K)` both registered, `down({Cmd}, K)` fires only the `(Cmd,K)` id. -/
theorem press_rule_exact (s : ManagerState) (e : KeyEvent) (k : Key)
    (hdown : e.is_key_down = true) (hek : e.key = some k) :
    (∀ id : HotkeyId,
        HotkeyEvent.mk id .Pressed ∈ (s.processEvent e).2 ↔
          ∃ hk : Hotkey, (id, hk) ∈ s.hotkeys ∧ hk.modifiers = e.modifiers ∧
            hk.key = some k ∧ id ∉ s.pressed_hotkeys) ∧
    (∀ ev ∈ (s.processEvent e).2, ev.state = .Pressed) ∧
    (ManagerState.processEvent
        ⟨[(0, ⟨Modifiers.CMD, some .K⟩), (1, ⟨Modifiers.CTRL, some .K⟩)], 2, []⟩
        ⟨Modifiers.CMD, some .K, true, none⟩).2 = [⟨0, .Pressed⟩] := by
  refine ⟨?_, ?_, by decide⟩
  · intro id
    rw [processEvent_down s e hdown]
    simp only
    constructor
    · intro hin
      obtain ⟨i, hi, hEq⟩ := List.mem_map.mp hin
      have hiid : i = id := congrArg HotkeyEvent.id hEq
      subst hiid
      obtain ⟨hk, hmem, hf⟩ := mem_map_fst_filter.mp hi
      simp only [ManagerState.pressFilter, Bool.and_eq_true, Bool.not_eq_true',
        decide_eq_true_eq] at hf
      refine ⟨hk, hmem, hf.1.1, ?_, (listMem_eq_false _ _).mp hf.2⟩
      rw [hf.1.2, hek]
    · rintro ⟨hk, hmem, hmods, hkey, hnp⟩
      refine List.mem_map.mpr ⟨id, mem_map_fst_filter.mpr ⟨hk, hmem, ?_⟩, rfl⟩
      simp only [ManagerState.pressFilter, Bool.and_eq_true, Bool.not_eq_true',
        decide_eq_true_eq]
      exact ⟨⟨hmods, by rw [hkey, hek]⟩, (listMem_eq_false _ _).mpr hnp⟩
  · intro ev hev
    rw [processEvent_down s e hdown] at hev
    obtain ⟨i, _, rfl⟩ := List.mem_map.mp hev
    rfl

theorem press_rule_exact_witness :
    (ManagerState.processEvent
        ⟨[(0, ⟨Modifiers.CMD, some .K⟩), (1, ⟨Modifiers.CTRL, some .K⟩)], 2, []⟩
        ⟨Modifiers.CMD, some .K, true, none⟩).2 = [⟨0, .Pressed⟩] :=
  (press_rule_exact ⟨[(0, ⟨Modifiers.CMD, some .K⟩), (1, ⟨Modifiers.CTRL, some .K⟩)], 2, []⟩
      ⟨Modifiers.CMD, some .K, true, none⟩ .K rfl rfl).2.2

/-- C1 counterexample: a `(Cmd,K)` hotkey is Pressed and the same-key down
event `down({Cmd}, K)` arrives again; the claim says it must transition to
Released and emit `{id, Released}`, but the engine emits nothing and leaves
the id pressed. -/
theorem same_key_down_does_not_release_cex :
    (ManagerState.processEvent ⟨[(0, ⟨Modifiers.CMD, some .K⟩)], 1, [0]⟩
        ⟨Modifiers.CMD, some .K, true, none⟩).2 = [] ∧
    (ManagerState.processEvent ⟨[(0, ⟨Modifiers.CMD, some .K⟩)], 1, [0]⟩
        ⟨Modifiers.CMD, some .K, true, none⟩).1.pressed_hotkeys = [0] := by
  decide

/-- C1 (amended): a Pressed hotkey whose key is `Some k` is released, with
`{id, Released}` emitted, by a key-up event with key `Some k`; a same-key
down event delivered while still Pressed emits nothing for that id and
leaves it Pressed. -/
theorem release_only_on_key_up (s : ManagerState) (e : KeyEvent) (id : HotkeyId)
    (hk : Hotkey) (k : Key) (hmem : (id, hk) ∈ s.hotkeys) (hhk : hk.key = some k)
    (hpressed : id ∈ s.pressed_hotkeys) (hek : e.key = some k) :
    (e.is_key_down = false →
       HotkeyEvent.mk id .Released ∈ (s.processEvent e).2 ∧
       id ∉ (s.processEvent e).1.pressed_hotkeys) ∧
    (e.is_key_down = true →
       (∀ ev ∈ (s.processEvent e).2, ev.id ≠ id) ∧
       id ∈ (s.processEvent e).1.pressed_hotkeys) := by
  constructor
  · intro hup
    rw [processEvent_up s e hup]
    have hfid : s.releaseFilter e (id, hk) = true := by
      simp only [ManagerState.releaseFilter, Bool.and_eq_true, Bool.or_eq_true,
        decide_eq_true_eq]
      exact ⟨(listMem_iff _ _).mpr hpressed, Or.inl (by rw [hhk, hek])⟩
    have hidToRel : id ∈ (s.hotkeys.filter (s.releaseFilter e)).map Prod.fst :=
      mem_map_fst_filter.mpr ⟨hk, hmem, hfid⟩
    constructor
    · exact List.mem_map.mpr ⟨id, hidToRel, rfl⟩
    · simp only
      rw [mem_foldl_setRemove]
      rintro ⟨-, habs⟩
      exact habs hidToRel
  · intro hdown
    exact ⟨down_no_event_for_pressed s e id hdown hpressed,
      down_pressed_stays_pressed s e id hdown hpressed⟩

theorem release_only_on_key_up_witness :
    HotkeyEvent.mk 0 .Released ∈
      (ManagerState.processEvent ⟨[(0, ⟨Modifiers.CMD, some .K⟩)], 1, [0]⟩
          ⟨Modifiers.CMD, some .K, false, none⟩).2 ∧
    0 ∉ (ManagerState.processEvent ⟨[(0, ⟨Modifiers.CMD, some .K⟩)], 1, [0]⟩
          ⟨Modifiers.CMD, some .K, false, none⟩).1.pressed_hotkeys :=
  (release_only_on_key_up ⟨[(0, ⟨Modifiers.CMD, some .K⟩)], 1, [0]⟩
      ⟨Modifiers.CMD, some .K, false, none⟩ 0 ⟨Modifiers.CMD, some .K⟩ .K
      (by decide) rfl (by decide) rfl).1 rfl

/-- C4 counterexample: a Pressed modifier-only hotkey `(Cmd|Shift, None)`
receives the modifier-release event with snapshot `{Cmd, Shift}` (an
unrelated modifier, Fn, was lifted).  Its modifiers are still a subset of
the snapshot, yet the engine emits `{id, Released}` — against the claim's
"released iff no longer a subset". -/
theorem modifier_only_release_cex :
    Modifiers.contains (Modifiers.union Modifiers.CMD Modifiers.SHIFT)
      (Modifiers.union Modifiers.CMD Modifiers.SHIFT) = true ∧
    HotkeyEvent.mk 0 .Released ∈
      (ManagerState.processEvent
          ⟨[(0, ⟨Modifiers.union Modifiers.CMD Modifiers.SHIFT, none⟩)], 1, [0]⟩
          ⟨Modifiers.union Modifiers.CMD Modifiers.SHIFT, none, false,
            some Modifiers.FN⟩).2 := by
  decide

/-- C4 (amended): for a Pressed hotkey and a modifier-only event
(`E.key = None`): if the event is a modifier release (`is_down = false`),
the hotkey is released iff its key is `None` (a modifier-only hotkey is
released by every modifier-release event) or its modifier set is no longer
a subset of `E.modifiers`; a modifier-gain event (`is_down = true`)
releases nothing. -/
theorem modifier_event_release_rule (s : ManagerState) (e : KeyEvent) (id : HotkeyId)
    (hk : Hotkey) (hmem : (id, hk) ∈ s.hotkeys)
    (huniq : ∀ hk', (id, hk') ∈ s.hotkeys → hk' = hk)
    (hpressed : id ∈ s.pressed_hotkeys) (hek : e.key = none) :
    (e.is_key_down = false →
       (HotkeyEvent.mk id .Released ∈ (s.processEvent e).2 ↔
         (hk.key = none ∨ e.modifiers.contains hk.modifiers = false))) ∧
    (e.is_key_down = true → ∀ ev ∈ (s.processEvent e).2, ev.id ≠ id) := by
  constructor
  · intro hup
    rw [processEvent_up s e hup]
    simp only
    constructor
    · intro hin
      obtain ⟨i, hi, hEq⟩ := List.mem_map.mp hin
      have hiid : i = id := congrArg HotkeyEvent.id hEq
      subst hiid
      obtain ⟨hk', hmem', hf⟩ := mem_map_fst_filter.mp hi
      have hkeq : hk' = hk := huniq hk' hmem'
      subst hkeq
      simp only [ManagerState.releaseFilter, Bool.and_eq_true, Bool.or_eq_true,
        decide_eq_true_eq, Bool.not_eq_true'] at hf
      rcases hf.2 with h1 | h2
      · left
        rw [← hek]
        exact h1
      · right
        exact h2.2
    · intro hcond
      refine List.mem_map.mpr ⟨id, mem_map_fst_filter.mpr ⟨hk, hmem, ?_⟩, rfl⟩
      simp only [ManagerState.releaseFilter, Bool.and_eq_true, Bool.or_eq_true,
        decide_eq_true_eq, Bool.not_eq_true']
      refine ⟨(listMem_iff _ _).mpr hpressed, ?_⟩
      rcases hcond with h1 | h2
      · exact Or.inl (by rw [hek, h1])
      · exact Or.inr ⟨by rw [hek]; rfl, h2⟩
  · intro hdown
    exact down_no_event_for_pressed s e id hdown hpressed

theorem altConsume_append (e : HotkeyState) (l1 l2 : List HotkeyState) :
    altConsume e (l1 ++ l2) =
      match altConsume e l1 with
      | some e2 => altConsume e2 l2
      | none => none := by
  induction l1 generalizing e with
  | nil => simp [altConsume]
  | cons s rest ih =>
      by_cases hs : s = e
      · simp [altConsume, hs, ih]
      · simp [altConsume, hs]

theorem statesFor_append (id : HotkeyId) (a b : List HotkeyEvent) :
    statesFor id (a ++ b) = statesFor id a ++ statesFor id b := by
  simp [statesFor]

theorem statesFor_map_mk (st : HotkeyState) (ids : List HotkeyId) (id : HotkeyId) :
    statesFor id (ids.map fun i => HotkeyEvent.mk i st) =
      (ids.filter fun i => decide (i = id)).map fun _ => st := by
  induction ids with
  | nil => simp [statesFor]
  | cons x xs ih =>
      by_cases hx : x = id
      · simp [statesFor, hx] at ih ⊢
        exact ih
      · simp [statesFor, hx] at ih ⊢
        exact ih

theorem filter_id_eq_nil {l : List HotkeyId} {id : HotkeyId} (h : id ∉ l) :
    (l.filter fun i => decide (i = id)) = [] := by
  induction l with
  | nil => rfl
  | cons x xs ih =>
      have hx : x ≠ id := fun hc => h (hc ▸ List.mem_cons_self x xs)
      have hxs : id ∉ xs := fun hc => h (List.mem_cons_of_mem x hc)
      simp [hx, ih hxs]

theorem filter_id_eq_singleton {l : List HotkeyId} {id : HotkeyId}
    (hnd : l.Nodup) (h : id ∈ l) :
    (l.filter fun i => decide (i = id)) = [id] := by
  induction l with
  | nil => cases h
  | cons x xs ih =>
      rcases List.mem_cons.mp h with rfl | hxs
      · have hnotin : id ∉ xs := (List.nodup_cons.mp hnd).1
        simp [filter_id_eq_nil hnotin]
      · have hx : x ≠ id := by
          rintro rfl
          exact (List.nodup_cons.mp hnd).1 hxs
        simp [hx, ih (List.nodup_cons.mp hnd).2 hxs]

theorem nodup_map_fst_filter {l : List (HotkeyId × Hotkey)}
    (h : (l.map Prod.fst).Nodup) (f : HotkeyId × Hotkey → Bool) :
    ((l.filter f).map Prod.fst).Nodup :=
  List.Nodup.sublist (List.Sublist.map Prod.fst (List.filter_sublist l)) h

theorem mem_toPress_not_pressed {s : ManagerState} {e : KeyEvent} {id : HotkeyId}
    (h : id ∈ (s.hotkeys.filter (s.pressFilter e)).map Prod.fst) :
    id ∉ s.pressed_hotkeys := by
  obtain ⟨hk, _, hf⟩ := mem_map_fst_filter.mp h
  simp only [ManagerState.pressFilter, Bool.and_eq_true, Bool.not_eq_true'] at hf
  exact (listMem_eq_false _ _).mp hf.2

theorem mem_toRelease_pressed {s : ManagerState} {e : KeyEvent} {id : HotkeyId}
    (h : id ∈ (s.hotkeys.filter (s.releaseFilter e)).map Prod.fst) :
    id ∈ s.pressed_hotkeys := by
  obtain ⟨hk, _, hf⟩ := mem_map_fst_filter.mp h
  simp only [ManagerState.releaseFilter, Bool.and_eq_true] at hf
  exact (listMem_iff _ _).mp hf.1

theorem phase_congr (m m2 : Manager) (id : HotkeyId)
    (h : id ∈ m.state.pressed_hotkeys ↔ id ∈ m2.state.pressed_hotkeys) :
    m.phase id = m2.phase id := by
  unfold Manager.phase
  by_cases hm : id ∈ m.state.pressed_hotkeys
  · rw [if_pos hm, if_pos (h.mp hm)]
  · rw [if_neg hm, if_neg (fun hc => hm (h.mpr hc))]

theorem register_preserves_WF (m : Manager) (h : Hotkey) (hwf : m.state.WF) :
    (m.register h).1.state.WF := by
  unfold Manager.register
  by_cases hc : (m.state.hotkeys.any fun p => decide (p.2 = h)) = true
  · simpa [hc] using hwf
  · simp only [hc, Bool.false_eq_true, if_false]
    obtain ⟨hnd, hlt⟩ := hwf
    refine ⟨?_, ?_⟩
    · simp only [List.map_append, List.map_cons, List.map_nil]
      rw [List.nodup_append]
      refine ⟨hnd, List.nodup_singleton _, ?_⟩
      intro a ha hb
      rcases List.mem_singleton.mp hb with rfl
      obtain ⟨p, hp, hfst⟩ := List.mem_map.mp ha
      exact absurd (hfst ▸ hlt p hp) (lt_irrefl _)
    · intro p hp
      rcases List.mem_append.mp hp with hold | hnew
      · exact Nat.lt_succ_of_lt (hlt p hold)
      · rcases List.mem_singleton.mp hnew with rfl
        exact Nat.lt_succ_self _

theorem unregister_preserves_WF (m : Manager) (id : HotkeyId) (hwf : m.state.WF) :
    (m.unregister id).1.state.WF := by
  unfold Manager.unregister
  rcases hfind : m.state.hotkeys.find? (fun p => decide (p.1 = id)) with _ | p
  · simpa [hfind] using hwf
  · simp only [hfind]
    obtain ⟨hnd, hlt⟩ := hwf
    refine ⟨nodup_map_fst_filter hnd _, ?_⟩
    intro q hq
    exact hlt q (List.mem_of_mem_filter hq)

theorem step_preserves_AltInv (m : Manager) (acc : List HotkeyEvent) (op : Op)
    (h : AltInv m acc) : AltInv (m.step op).1 (acc ++ (m.step op).2) := by
  obtain ⟨hwf, halt⟩ := h
  cases op with
  | reg hk =>
      refine ⟨register_preserves_WF m hk hwf, ?_⟩
      intro id
      simp only [Manager.step, List.append_nil]
      rw [halt id]
      congr 1
      refine phase_congr m _ id ?_
      unfold Manager.register
      by_cases hc : (m.state.hotkeys.any fun p => decide (p.2 = hk)) = true
      · simp [hc]
      · simp [hc]
  | unreg uid =>
      refine ⟨unregister_preserves_WF m uid hwf, ?_⟩
      intro id
      simp only [Manager.step, List.append_nil]
      rw [halt id]
      congr 1
      refine phase_congr m _ id ?_
      unfold Manager.unregister
      rcases hfind : m.state.hotkeys.find? (fun p => decide (p.1 = uid)) with _ | p
      · simp [hfind]
      · simp [hfind]
  | proc e =>
      constructor
      · rcases hdir : e.is_key_down with _ | _
        · rw [Manager.step]
          simp only
          rw [processEvent_up m.state e hdir]
          exact ⟨hwf.1, hwf.2⟩
        · rw [Manager.step]
          simp only
          rw [processEvent_down m.state e hdir]
          exact ⟨hwf.1, hwf.2⟩
      · intro id
        rw [statesFor_append, altConsume_append, halt id]
        rcases hdir : e.is_key_down with _ | _
        · -- release branch
          rw [Manager.step]
          simp only
          rw [processEvent_up m.state e hdir]
          simp only
          rw [statesFor_map_mk]
          by_cases hmem : id ∈ (m.state.hotkeys.filter (m.state.releaseFilter e)).map Prod.fst
          · rw [filter_id_eq_singleton (nodup_map_fst_filter hwf.1 _) hmem]
            have hpr : id ∈ m.state.pressed_hotkeys := mem_toRelease_pressed hmem
            have hph : m.phase id = .Released := by
              unfold Manager.phase
              rw [if_pos hpr]
            rw [hph]
            have hph2 :
                (Manager.mk
                    ⟨m.state.hotkeys, m.state.next_id,
                      ((m.state.hotkeys.filter (m.state.releaseFilter e)).map Prod.fst).foldl
                        setRemove m.state.pressed_hotkeys⟩ m.blocking).phase id = .Pressed := by
              unfold Manager.phase
              rw [if_neg]
              simp only
              rw [mem_foldl_setRemove]
              rintro ⟨-, habs⟩
              exact habs hmem
            rw [hph2]
            simp [altConsume, HotkeyState.flip]
          · rw [filter_id_eq_nil hmem]
            simp only [List.map_nil, altConsume]
            congr 1
            refine phase_congr m _ id ?_
            simp only
            rw [mem_foldl_setRemove]
            constructor
            · exact fun hp => ⟨hp, hmem⟩
            · exact fun hp => hp.1
        · -- press branch
          rw [Manager.step]
          simp only
          rw [processEvent_down m.state e hdir]
          simp only
          rw [statesFor_map_mk]
          by_cases hmem : id ∈ (m.state.hotkeys.filter (m.state.pressFilter e)).map Prod.fst
          · rw [filter_id_eq_singleton (nodup_map_fst_filter hwf.1 _) hmem]
            have hpr : id ∉ m.state.pressed_hotkeys := mem_toPress_not_pressed hmem
            have hph : m.phase id = .Pressed := by
              unfold Manager.phase
              rw [if_neg hpr]
            rw [hph]
            have hph2 :
                (Manager.mk
                    ⟨m.state.hotkeys, m.state.next_id,
                      ((m.state.hotkeys.filter (m.state.pressFilter e)).map Prod.fst).foldl
                        setInsert m.state.pressed_hotkeys⟩ m.blocking).phase id = .Released := by
              unfold Manager.phase
              rw [if_pos]
              simp only
              rw [mem_foldl_setInsert]
              exact Or.inr hmem
            rw [hph2]
            simp [altConsume, HotkeyState.flip]
          · rw [filter_id_eq_nil hmem]
            simp only [List.map_nil, altConsume]
            congr 1
            refine phase_congr m _ id ?_
            simp only
            rw [mem_foldl_setInsert]
            constructor
            · exact fun hp => Or.inl hp
            · rintro (hp | hp)
              · exact hp
              · exact absurd hp hmem

theorem run_preserves_AltInv (ops : List Op) (m : Manager) (acc : List HotkeyEvent)
    (h : AltInv m acc) : AltInv (m.run ops).1 (acc ++ (m.run ops).2) := by
  induction ops generalizing m acc with
  | nil => simpa [Manager.run]
  | cons op ops ih =>
      have h1 := step_preserves_AltInv m acc op h
      have h2 := ih (m.step op).1 (acc ++ (m.step op).2) h1
      simp only [Manager.run]
      rw [← List.append_assoc]
      exact h2

theorem initial_AltInv : AltInv Manager.initial [] := by
  constructor
  · exact ⟨List.nodup_nil, fun p hp => absurd hp (List.not_mem_nil p)⟩
  · intro id
    simp [statesFor, altConsume, Manager.phase, Manager.initial, ManagerState.new]

/-- C9: starting from the fresh manager, for every operation sequence
(canonical events interleaved with arbitrary register/unregister calls) and
every id, the lifecycle states emitted for that id strictly alternate
Pressed, Released, Pressed, ... starting with Pressed (`altConsume` from
`Pressed` succeeds exactly on such prefixes). -/
theorem hotkey_events_alternate (ops : List Op) (id : HotkeyId) :
    (altConsume .Pressed (statesFor id (Manager.initial.run ops).2)).isSome := by
  have h := run_preserves_AltInv ops Manager.initial [] initial_AltInv
  have h2 := h.2 id
  rw [List.nil_append] at h2
  rw [h2]
  rfl

theorem modifier_event_release_rule_witness :
    HotkeyEvent.mk 0 .Released ∈
      (ManagerState.processEvent ⟨[(0, ⟨Modifiers.CMD, some .K⟩)], 1, [0]⟩
          ⟨Modifiers.empty, none, false, some Modifiers.CMD⟩).2 ↔
      ((⟨Modifiers.CMD, some .K⟩ : Hotkey).key = none ∨
        Modifiers.contains Modifiers.empty
          (⟨Modifiers.CMD, some .K⟩ : Hotkey).modifiers = false) :=
  (modifier_event_release_rule ⟨[(0, ⟨Modifiers.CMD, some .K⟩)], 1, [0]⟩
      ⟨Modifiers.empty, none, false, some Modifiers.CMD⟩ 0 ⟨Modifiers.CMD, some .K⟩
      (by decide)
      (fun hk' hmem' => by
        have := List.mem_singleton.mp hmem'
        exact congrArg Prod.snd this)
      (by decide) rfl).1 rfl

end HandyKeys
